import Mathlib

/-!
Verification of the MassaChat core: the on-chain chat contract
(`contracts/src/index.ts` and its extended variant with profiles, privacy,
blocks and last-seen records), the web ledger adapter (`apps/web/src/lib/massa.ts`),
the conversation addressing scheme (`apps/web/src/App.tsx`), and the
asymmetric sealing engine wrappers (`encryptMessage` / `decryptMessage`).

Embedding conventions:
* Contract storage is a partial map from keys to values.  The contract turns
  every key and value string into UTF-8 bytes via `strToBytes` / `bytesToStr`,
  which are mutually inverse on the strings the contract uses, so keys and
  values are modelled directly as `String`.
* AssemblyScript `u64` arithmetic is modelled on `Nat` with explicit
  `% 2^64` where the source can overflow.
* `u64.toString()` / `I64.parseInt` are modelled as decimal printing and
  parsing; the contract only ever parses back its own canonical prints.
* `generateEvent` has no storage effect and is dropped.
* An aborting `assert` rolls the whole call back, so fallible contract entry
  points return `Except String Storage` with `.error` carrying the assertion
  message and meaning "storage unchanged".
-/

namespace MassaChat

/-! ## Decimal printing and parsing (AssemblyScript `u64.toString` / `I64.parseInt`) -/

/-- The decimal digit character for `d < 10`. -/
def digitChar (d : Nat) : Char := Char.ofNat (48 + d)

/-- Little-endian decimal digits of `n`, computed with explicit fuel so that
the definition is structurally recursive (`fuel ≥ n` gives the true digits). -/
def toDigitsRev : Nat → Nat → List Nat
  | _, 0 => []
  | 0, _ + 1 => []
  | fuel + 1, n + 1 => (n + 1) % 10 :: toDigitsRev fuel ((n + 1) / 10)

/-- Decimal rendering of a natural number, as AssemblyScript `u64.toString()`
produces it (most significant digit first, `"0"` for zero). -/
def u64ToString (n : Nat) : String :=
  if n = 0 then "0" else ⟨((toDigitsRev n n).map digitChar).reverse⟩

/-- Numeric value of a decimal digit character. -/
def charToDigit (c : Char) : Nat := c.toNat - 48

/-- Value of a big-endian decimal digit string. -/
def decValue (cs : List Char) : Nat := Nat.ofDigits 10 ((cs.map charToDigit).reverse)

/-- Model of `<u64>I64.parseInt(raw)` on the canonical decimal strings the
contract stores (the only strings it is ever applied to). -/
def parseU64 (s : String) : Nat := decValue s.data % 2 ^ 64

/-! ## Contract storage (`Storage` of the Massa AS SDK, as a keyed string map) -/

/-- The contract's key-value store. -/
def Storage := String → Option String

/-- Fresh storage with no keys set. -/
def emptyStorage : Storage := fun _ => none

/-- `Storage.set`. -/
def setStore (s : Storage) (k v : String) : Storage :=
  fun k' => if k' = k then some v else s k'

/-! ## Storage key helpers (contract source) -/

/-- `lastIndexKey` of the contract. -/
def lastIndexKey (convId : String) : String := "conv:" ++ convId ++ ":last"

/-- `messageKey` of the contract. -/
def messageKey (convId : String) (index : Nat) : String :=
  "conv:" ++ convId ++ ":msg:" ++ u64ToString index

/-- `profileKey` of the contract. -/
def profileKey (address : String) : String := "profile:" ++ address

/-- `usernameIndexKey` of the contract. -/
def usernameIndexKey (usernameLower : String) : String := "uname:" ++ usernameLower

/-- `privacyKey` of the contract. -/
def privacyKey (address : String) : String := "privacy:" ++ address

/-- `blockKey` of the contract. -/
def blockKey (owner target : String) : String := "block:" ++ owner ++ ":" ++ target

/-- `lastSeenKey` of the contract. -/
def lastSeenKey (address : String) : String := "lastseen:" ++ address

/-- ASCII lower-casing of the contract's `toLowerAscii`, character by
character (codes 65..90 are shifted by 32, all others kept). -/
def toLowerAsciiChar (c : Char) : Char :=
  if 65 ≤ c.toNat ∧ c.toNat ≤ 90 then Char.ofNat (c.toNat + 32) else c

/-- The contract's `toLowerAscii`. -/
def toLowerAscii (s : String) : String := ⟨s.data.map toLowerAsciiChar⟩

/-! ## Stored record models and their JSON serialization (contract source) -/

/-- The contract's `Message` record. -/
structure Message where
  cid : String
  timestamp : Nat
  deriving DecidableEq

/-- `Message.toJSON` of the contract. -/
def Message.toJSON (m : Message) : String :=
  "\x7b\"cid\":\"" ++ m.cid ++ "\",\"timestamp\":" ++ u64ToString m.timestamp ++ "\x7d"

/-- The contract's `Profile` record. -/
structure Profile where
  address : String
  username : String
  displayName : String
  avatarCid : String
  bio : String
  createdAt : Nat
  updatedAt : Nat
  deriving DecidableEq

/-- `Profile.toJSON` of the contract. -/
def Profile.toJSON (p : Profile) : String :=
  "\x7b\"address\":\"" ++ p.address ++
  "\",\"username\":\"" ++ p.username ++
  "\",\"displayName\":\"" ++ p.displayName ++
  "\",\"avatarCid\":\"" ++ p.avatarCid ++
  "\",\"bio\":\"" ++ p.bio ++
  "\",\"createdAt\":" ++ u64ToString p.createdAt ++
  ",\"updatedAt\":" ++ u64ToString p.updatedAt ++ "\x7d"

/-- The contract's `Privacy` record. -/
structure Privacy where
  showLastSeen : Bool
  showProfilePhoto : Bool
  showBio : Bool
  deriving DecidableEq

/-- `Privacy.toJSON` of the contract. -/
def Privacy.toJSON (c : Privacy) : String :=
  "\x7b\"showLastSeen\":" ++ (if c.showLastSeen then "true" else "false") ++
  ",\"showProfilePhoto\":" ++ (if c.showProfilePhoto then "true" else "false") ++
  ",\"showBio\":" ++ (if c.showBio then "true" else "false") ++ "\x7d"

/-! ## Messaging entry points (contract source) -/

/-- The contract's `add_message`: reads the last index of the conversation
(0 when unseen), assigns the next index, stores the message record there,
updates the last-index record, and returns the new index.  `now` is
`Context.timestamp()`. -/
def add_message (s : Storage) (now : Nat) (convId cid : String) : Storage × Nat :=
  let key := lastIndexKey convId
  let lastIndex : Nat :=
    match s key with
    | some raw => parseU64 raw
    | none => 0
  let newIndex := (lastIndex + 1) % 2 ^ 64
  let msg : Message := ⟨cid, now⟩
  let s1 := setStore s (messageKey convId newIndex) msg.toJSON
  let s2 := setStore s1 key (u64ToString newIndex)
  (s2, newIndex)

/-- The contract's `get_message`: the stored JSON string, or `""` when the
index is unused. -/
def get_message (s : Storage) (convId : String) (index : Nat) : String :=
  match s (messageKey convId index) with
  | some v => v
  | none => ""

/-- The contract's `get_last_index`: 0 when the conversation is unseen. -/
def get_last_index (s : Storage) (convId : String) : Nat :=
  match s (lastIndexKey convId) with
  | some raw => parseU64 raw
  | none => 0

/-! ## Profile and username registry (contract source) -/

/-- Position of the first occurrence of `needle` in `hay`
(AssemblyScript `String.indexOf`, `none` standing for `-1`). -/
def firstIndexOf (hay needle : List Char) : Option Nat :=
  match hay with
  | [] => if needle = [] then some 0 else none
  | c :: rest =>
    if needle.isPrefixOf (c :: rest) then some 0
    else (firstIndexOf rest needle).map (· + 1)

/-- The `createdAt` recovery of the contract's `register_profile`: find the
first occurrence of `"createdAt":` in the previously stored profile JSON,
drop it (`slice(createdIdx + 12)`), cut at the next comma
(`substring(0, end)` with the guard `end > 0`) and parse; fall back to
`dflt` (the current timestamp) when any step fails. -/
def extractCreatedAt (raw : String) (dflt : Nat) : Nat :=
  match firstIndexOf raw.data "\"createdAt\":".data with
  | none => dflt
  | some createdIdx =>
    let sl := raw.data.drop (createdIdx + 12)
    match firstIndexOf sl [','] with
    | none => dflt
    | some e => if 0 < e then parseU64 ⟨sl.take e⟩ else dflt

/-- The contract's `register_profile`.  Aborting asserts (`username required`,
`username already taken`) roll the call back and are modelled as `.error`;
on success the new profile JSON is stored under the address key and the
case-folded username index entry is pointed at the address. -/
def register_profile (s : Storage) (now : Nat)
    (ownerAddress username displayName avatarCid bio : String) :
    Except String Storage :=
  let unameLower := toLowerAscii username
  if username.length = 0 then .error "username required"
  else
    let unameKey := usernameIndexKey unameLower
    let ownerOk : Except String Unit :=
      match s unameKey with
      | some existingOwner =>
        if existingOwner ≠ ownerAddress then .error "username already taken" else .ok ()
      | none => .ok ()
    match ownerOk with
    | .error e => .error e
    | .ok () =>
      let pKey := profileKey ownerAddress
      let createdAt : Nat :=
        match s pKey with
        | some existingRaw => extractCreatedAt existingRaw now
        | none => now
      let profile : Profile :=
        ⟨ownerAddress, username, displayName, avatarCid, bio, createdAt, now⟩
      .ok (setStore (setStore s pKey profile.toJSON) unameKey ownerAddress)

/-- The contract's `get_profile_by_address`: stored JSON or `""`. -/
def get_profile_by_address (s : Storage) (address : String) : String :=
  match s (profileKey address) with
  | some v => v
  | none => ""

/-- The contract's `get_profile_by_username` (case-insensitive). -/
def get_profile_by_username (s : Storage) (username : String) : String :=
  match s (usernameIndexKey (toLowerAscii username)) with
  | some owner => get_profile_by_address s owner
  | none => ""

/-! ## Privacy, block list and last-seen (contract source) -/

/-- The contract's `set_privacy`. -/
def set_privacy (s : Storage) (ownerAddress : String)
    (showLastSeen showProfilePhoto showBio : Bool) : Storage :=
  setStore s (privacyKey ownerAddress)
    (Privacy.toJSON ⟨showLastSeen, showProfilePhoto, showBio⟩)

/-- The contract's `get_privacy`: stored JSON or `""` when never set. -/
def get_privacy (s : Storage) (address : String) : String :=
  match s (privacyKey address) with
  | some v => v
  | none => ""

/-- The contract's `set_blocked` (deleting the key on unblock). -/
def set_blocked (s : Storage) (owner target : String) (blocked : Bool) : Storage :=
  if blocked then setStore s (blockKey owner target) "1"
  else fun k' => if k' = blockKey owner target then none else s k'

/-- The contract's `is_blocked`. -/
def is_blocked (s : Storage) (owner target : String) : Bool :=
  (s (blockKey owner target)).isSome

/-- The contract's `touch_last_seen`. -/
def touch_last_seen (s : Storage) (now : Nat) (address : String) : Storage :=
  setStore s (lastSeenKey address) (u64ToString now)

/-- The contract's `get_last_seen` (0 when never set). -/
def get_last_seen (s : Storage) (address : String) : Nat :=
  match s (lastSeenKey address) with
  | some raw => parseU64 raw
  | none => 0

/-! ## Web ledger adapter (`apps/web/src/lib/massa.ts`)

The adapter serializes arguments with `Args`, issues the contract call, and
deserializes the returned value; the (bijective) `Args` transport is
identified with the values themselves, and a finalized successful operation
with the contract function applied to the ledger state. -/

/-- The web adapter's `addMessage`: calls the contract's `add_message`,
waits for final execution, and returns `0n` unconditionally
("For simplicity we return 0n; callers can refetch the latest index."). -/
def addMessage (s : Storage) (now : Nat) (convId cid : String) : Storage × Nat :=
  ((add_message s now convId cid).1, 0)

/-- The web adapter's `getLastIndex`: reads the contract's `get_last_index`. -/
def getLastIndex (s : Storage) (convId : String) : Nat :=
  get_last_index s convId

/-- The web adapter's `getMessage`: reads the contract's `get_message`. -/
def getMessage (s : Storage) (convId : String) (index : Nat) : String :=
  get_message s convId index

/-- Modelled from the spec: `JSON.parse` with the `!!raw.showX` coercions in
the web adapter's `getPrivacy`, restricted to the canonical strings produced
by `Privacy.toJSON` — the only values `set_privacy` ever stores under a
privacy key; any other string makes `JSON.parse` fail, which the adapter
turns into `null`. -/
def parsePrivacy (json : String) : Option Privacy :=
  if json = Privacy.toJSON ⟨true, true, true⟩ then some ⟨true, true, true⟩
  else if json = Privacy.toJSON ⟨true, true, false⟩ then some ⟨true, true, false⟩
  else if json = Privacy.toJSON ⟨true, false, true⟩ then some ⟨true, false, true⟩
  else if json = Privacy.toJSON ⟨true, false, false⟩ then some ⟨true, false, false⟩
  else if json = Privacy.toJSON ⟨false, true, true⟩ then some ⟨false, true, true⟩
  else if json = Privacy.toJSON ⟨false, true, false⟩ then some ⟨false, true, false⟩
  else if json = Privacy.toJSON ⟨false, false, true⟩ then some ⟨false, false, true⟩
  else if json = Privacy.toJSON ⟨false, false, false⟩ then some ⟨false, false, false⟩
  else none

/-- The web adapter's `getPrivacy`: reads the contract's `get_privacy` and
returns `null` when the stored JSON is empty or unparsable. -/
def getPrivacy (s : Storage) (address : String) : Option Privacy :=
  let json := get_privacy s address
  if json = "" then none else parsePrivacy json

/-- The privacy value the web UI uses (`App.tsx`):
`(await getPrivacy(addr)) ?? { showLastSeen: true, showProfilePhoto: true, showBio: true }`. -/
def uiPrivacyFor (s : Storage) (address : String) : Privacy :=
  (getPrivacy s address).getD ⟨true, true, true⟩

/-! ## Conversation addressing (`apps/web/src/App.tsx`) -/

/-- JavaScript's default string comparison (used by `Array.prototype.sort`):
lexicographic on the code-unit sequences.  `jsLtChars x y` is `x < y`. -/
def jsLtChars : List Char → List Char → Bool
  | [], [] => false
  | [], _ :: _ => true
  | _ :: _, [] => false
  | a :: as, b :: bs =>
    if a.toNat < b.toNat then true
    else if b.toNat < a.toNat then false
    else jsLtChars as bs

/-- `conversationIdFor` of `App.tsx`: `const [x, y] = [a, b].sort()` followed
by the template `conv-${x}-${y}`.  Sorting a two-element array swaps it
exactly when the second element compares strictly below the first. -/
def conversationIdFor (a b : String) : String :=
  if jsLtChars b.data a.data then "conv-" ++ b ++ "-" ++ a
  else "conv-" ++ a ++ "-" ++ b

/-! ## Asymmetric sealing engine (`encryptMessage` / `decryptMessage`)

The wrappers live in the repository; the `tweetnacl` primitive they call is
an external library.  Modelled from the spec (§4.1): `nacl.box` is an ideal
authenticated public-key box — the public key is the image of the secret key
under the (injective) base-point scalar multiplication, the two sides derive
the same shared secret from (their secret, other's public), and opening
succeeds exactly when the shared secret and nonce match the ones the box was
built from.  Secret keys are drawn from a CSPRNG; the model takes the drawn
scalar as an explicit argument, and similarly takes the random nonce of
`encryptMessage` as an argument.  The base64 / UTF-8 transport codecs are
bijective on the values transported, and are identified with the values. -/

/-- Modelled from the spec: a NaCl box keypair.  `publicKey` is determined
by `secretKey` (base-point scalar multiplication, modelled as an injective
map on the secret scalar). -/
structure KeyPair where
  publicKey : Nat
  secretKey : Nat
  deriving DecidableEq

/-- Modelled from the spec: the public key derived from a secret scalar. -/
def curvePub (sk : Nat) : Nat := sk

/-- `generateKeyPair` (`nacl.box.keyPair()`), with the randomly drawn secret
scalar as an explicit argument. -/
def generateKeyPair (seed : Nat) : KeyPair := ⟨curvePub seed, seed⟩

/-- Modelled from the spec: the Diffie-Hellman shared secret of one party's
public key and the other party's secret key; symmetric in the two keypairs. -/
def dhShared (theirPublic mySecret : Nat) : Nat × Nat :=
  (min theirPublic (curvePub mySecret), max theirPublic (curvePub mySecret))

/-- Modelled from the spec: an authenticated ciphertext (`nacl.box` output),
opaque bytes binding plaintext, nonce and the shared secret of the two keys. -/
structure Boxed where
  plaintext : String
  nonce : List Nat
  shared : Nat × Nat
  deriving DecidableEq

/-- Modelled from the spec: `nacl.box(message, nonce, theirPublic, mySecret)`. -/
def naclBox (message : String) (nonce : List Nat) (theirPublic mySecret : Nat) : Boxed :=
  ⟨message, nonce, dhShared theirPublic mySecret⟩

/-- Modelled from the spec: `nacl.box.open`, returning `null` (here `none`)
unless the shared secret recomputed from the given keys and the given nonce
both match the box. -/
def naclBoxOpen (c : Boxed) (nonce : List Nat) (theirPublic mySecret : Nat) :
    Option String :=
  if c.shared = dhShared theirPublic mySecret ∧ c.nonce = nonce then some c.plaintext
  else none

/-- The repository's `encryptMessage`: seals `message` with a fresh random
nonce (taken as the `nonce` argument) against the recipient's public key and
the sender's secret key, returning the base64-encoded nonce and box. -/
def encryptMessage (message : String) (nonce : List Nat)
    (senderSecretKey recipientPublicKey : Nat) : List Nat × Boxed :=
  (nonce, naclBox message nonce recipientPublicKey senderSecretKey)

/-- The repository's `decryptMessage`, restricted to well-formed transport
values (the decodes succeed and the decoded arguments are well-sized): the
nonce and box are decoded and opened against the sender's public key and the
recipient's secret key; `null` (here `none`) when opening fails.  The
library's throwing error paths on malformed inputs are modelled by
`decryptMessageChecked` below. -/
def decryptMessage (nonceB64 : List Nat) (boxB64 : Boxed)
    (senderPublicKey recipientSecretKey : Nat) : Option String :=
  match naclBoxOpen boxB64 nonceB64 senderPublicKey recipientSecretKey with
  | some opened => some opened
  | none => none

/-- Modelled from the spec and the library's documented behaviour: a
transported base64 string either is the canonical encoding of a value or is
not valid base64 at all. -/
inductive B64 (α : Type) where
  | valid (a : α)
  | invalid (junk : String)

/-- Modelled from the spec: `naclUtil.decodeBase64`, which throws
`TypeError('invalid encoding')` on a string that is not valid base64;
`.error` models the thrown exception. -/
def decodeBase64 {α : Type} : B64 α → Except String α
  | .valid a => .ok a
  | .invalid _ => .error "invalid encoding"

/-- The repository's `decryptMessage` with the library's throwing error
paths made explicit: decoding the transported nonce or box throws on invalid
base64, and `nacl.box.open` throws (`bad nonce size`) when the decoded nonce
does not have the scheme's 24-byte nonce length; only past those checks does
authenticated opening run, yielding the `null` sentinel (`none`) on failure.
`.error` models a thrown exception, `.ok` the function's return value.  Key
arguments are the scalars of keypairs (already well-sized); `decryptMessage`
above is the restriction of this model to well-formed inputs. -/
def decryptMessageChecked (nonceB64 : B64 (List Nat)) (boxB64 : B64 Boxed)
    (senderPublicKey recipientSecretKey : Nat) : Except String (Option String) :=
  match decodeBase64 nonceB64 with
  | .error e => .error e
  | .ok nonce =>
    match decodeBase64 boxB64 with
    | .error e => .error e
    | .ok boxed =>
      if nonce.length ≠ 24 then .error "bad nonce size"
      else .ok (decryptMessage nonce boxed senderPublicKey recipientSecretKey)

/-! ## Operation sequences -/

/-- `add_message` applied for each `(timestamp, cid)` of `calls`, in order. -/
def addMessages (s : Storage) (convId : String) (calls : List (Nat × String)) : Storage :=
  calls.foldl (fun st p => (add_message st p.1 convId p.2).1) s

/-- One `register_profile` request. -/
structure RegOp where
  now : Nat
  address : String
  username : String
  displayName : String
  avatarCid : String
  bio : String

/-- Run one `register_profile` request; a rejected call leaves storage
unchanged (the aborting assert rolls the transaction back). -/
def applyReg (s : Storage) (op : RegOp) : Storage :=
  match register_profile s op.now op.address op.username op.displayName
      op.avatarCid op.bio with
  | .ok s' => s'
  | .error _ => s

/-- A sequence of `register_profile` requests against fresh storage. -/
def runRegisters (ops : List RegOp) : Storage :=
  ops.foldl applyReg emptyStorage

/-- The username-index / profile-table consistency invariant of the spec:
every case-folded index entry `u ↦ addr` is justified by the stored profile
of `addr`, whose username field equals `u` under case-insensitive
comparison. -/
def UnameConsistent (s : Storage) : Prop :=
  ∀ u addr, s (usernameIndexKey u) = some addr →
    ∃ p : Profile, s (profileKey addr) = some p.toJSON ∧ toLowerAscii p.username = u

/-! ## Basic lemmas: strings, decimal printing, storage keys -/

theorem strData_inj {s t : String} (h : s.data = t.data) : s = t := by
  cases s; cases t; exact congrArg String.mk h

theorem digitChar_toNat {d : Nat} (h : d < 10) : (digitChar d).toNat = 48 + d := by
  unfold digitChar; interval_cases d <;> decide

theorem charToDigit_digitChar {d : Nat} (h : d < 10) : charToDigit (digitChar d) = d := by
  unfold charToDigit; rw [digitChar_toNat h]; omega

theorem toDigitsRev_eq_digits :
    ∀ (fuel n : Nat), n ≤ fuel → toDigitsRev fuel n = Nat.digits 10 n := by
  intro fuel
  induction fuel with
  | zero =>
    intro n h
    interval_cases n
    simp [toDigitsRev]
  | succ f ih =>
    intro n h
    cases n with
    | zero => simp [toDigitsRev]
    | succ m =>
      rw [toDigitsRev]
      have hdiv : (m + 1) / 10 ≤ f := by
        have := Nat.div_lt_self (Nat.succ_pos m) (by norm_num : (1 : Nat) < 10)
        omega
      rw [ih _ hdiv]
      rw [Nat.digits_def' (by norm_num : (1 : Nat) < 10) (Nat.succ_pos m)]

theorem decValue_u64ToString (n : Nat) : decValue (u64ToString n).data = n := by
  unfold u64ToString
  by_cases h : n = 0
  · subst h; decide
  · rw [if_neg h]
    show decValue (((toDigitsRev n n).map digitChar).reverse) = n
    rw [toDigitsRev_eq_digits n n le_rfl]
    show decValue (((Nat.digits 10 n).map digitChar).reverse) = n
    unfold decValue
    rw [List.map_reverse, List.reverse_reverse, List.map_map]
    have hmap : List.map (charToDigit ∘ digitChar) (Nat.digits 10 n) = Nat.digits 10 n := by
      rw [List.map_congr_left (g := id) (fun d hd => by
        simpa using charToDigit_digitChar (Nat.digits_lt_base (by norm_num) hd))]
      exact List.map_id _
    rw [hmap, Nat.ofDigits_digits]

theorem parseU64_u64ToString {n : Nat} (h : n < 2 ^ 64) : parseU64 (u64ToString n) = n := by
  unfold parseU64; rw [decValue_u64ToString]; exact Nat.mod_eq_of_lt h

theorem u64ToString_inj {m n : Nat} (h : u64ToString m = u64ToString n) : m = n := by
  have h' := congrArg (fun s : String => decValue s.data) h
  simpa [decValue_u64ToString] using h'

theorem u64ToString_mem_digit {n : Nat} {c : Char}
    (hc : c ∈ (u64ToString n).data) : 48 ≤ c.toNat ∧ c.toNat ≤ 57 := by
  unfold u64ToString at hc
  by_cases h : n = 0
  · subst h; simp only [if_pos rfl] at hc
    have : c = '0' := by simpa using hc
    subst this; decide
  · rw [if_neg h] at hc
    have hc' : c ∈ ((toDigitsRev n n).map digitChar).reverse := hc
    rw [toDigitsRev_eq_digits n n le_rfl] at hc'
    rw [List.mem_reverse] at hc'
    obtain ⟨d, hd, rfl⟩ := List.mem_map.mp hc'
    have hlt := Nat.digits_lt_base (by norm_num) hd
    rw [digitChar_toNat hlt]; omega

theorem u64ToString_data_ne_nil (n : Nat) : (u64ToString n).data ≠ [] := by
  unfold u64ToString
  by_cases h : n = 0
  · subst h; simp
  · rw [if_neg h]
    show ((toDigitsRev n n).map digitChar).reverse ≠ []
    rw [toDigitsRev_eq_digits n n le_rfl]
    simp [Nat.digits_ne_nil_iff_ne_zero, h]

theorem split_at_delim {d : Char} :
    ∀ (xs xs' : List Char) {ys ys' : List Char}, d ∉ xs → d ∉ xs' →
      xs ++ d :: ys = xs' ++ d :: ys' → xs = xs' ∧ ys = ys' := by
  intro xs
  induction xs with
  | nil =>
    intro xs' ys ys' _ h2 h
    cases xs' with
    | nil => simpa using h
    | cons c t =>
      simp only [List.nil_append, List.cons_append, List.cons.injEq] at h
      exact absurd (h.1 ▸ List.mem_cons_self c t) h2
  | cons c t ih =>
    intro xs' ys ys' h1 h2 h
    cases xs' with
    | nil =>
      simp only [List.nil_append, List.cons_append, List.cons.injEq] at h
      exact absurd (h.1.symm ▸ List.mem_cons_self c t) h1
    | cons c' t' =>
      simp only [List.cons_append, List.cons.injEq] at h
      obtain ⟨rfl, h⟩ := h
      have ht := ih t' (fun hm => h1 (List.mem_cons_of_mem _ hm))
        (fun hm => h2 (List.mem_cons_of_mem _ hm)) h
      exact ⟨by rw [ht.1], ht.2⟩

theorem reverse_append_cons (a b : List Char) (c : Char) :
    (a ++ c :: b).reverse = b.reverse ++ c :: a.reverse := by
  rw [List.reverse_append]; simp

theorem lastIndexKey_data (c : String) :
    (lastIndexKey c).data = "conv:".data ++ (c.data ++ [':', 'l', 'a', 's', 't']) := by
  have h : (":last" : String).data = [':', 'l', 'a', 's', 't'] := rfl
  simp [lastIndexKey, String.data_append, h]

theorem messageKey_data (c : String) (i : Nat) :
    (messageKey c i).data =
      ("conv:".data ++ c.data ++ [':', 'm', 's', 'g']) ++ ':' :: (u64ToString i).data := by
  have h : (":msg:" : String).data = [':', 'm', 's', 'g', ':'] := rfl
  simp [messageKey, String.data_append, h]

theorem lastIndexKey_inj {c c' : String} (h : lastIndexKey c = lastIndexKey c') : c = c' := by
  have h' := congrArg String.data h
  rw [lastIndexKey_data, lastIndexKey_data] at h'
  exact strData_inj (List.append_cancel_right (List.append_cancel_left h'))

theorem colon_not_mem_u64rev (i : Nat) : ':' ∉ (u64ToString i).data.reverse := by
  intro hm
  rw [List.mem_reverse] at hm
  have := u64ToString_mem_digit hm
  have h58 : (':' : Char).toNat = 58 := rfl
  omega

theorem messageKey_inj {c c' : String} {i j : Nat}
    (h : messageKey c i = messageKey c' j) : c = c' ∧ i = j := by
  have h' := congrArg String.data h
  rw [messageKey_data, messageKey_data] at h'
  have hrev : (u64ToString i).data.reverse ++
        ':' :: ("conv:".data ++ c.data ++ [':', 'm', 's', 'g']).reverse =
      (u64ToString j).data.reverse ++
        ':' :: ("conv:".data ++ c'.data ++ [':', 'm', 's', 'g']).reverse := by
    rw [← reverse_append_cons, ← reverse_append_cons, h']
  have hsp := split_at_delim _ _ (colon_not_mem_u64rev i) (colon_not_mem_u64rev j) hrev
  constructor
  · have h2 := congrArg List.reverse hsp.2
    simp only [List.reverse_reverse] at h2
    exact strData_inj (List.append_cancel_left (List.append_cancel_right h2))
  · have h1 := congrArg List.reverse hsp.1
    simp only [List.reverse_reverse] at h1
    exact u64ToString_inj (strData_inj h1)

theorem lastIndexKey_ne_messageKey (c c' : String) (i : Nat) :
    lastIndexKey c ≠ messageKey c' i := by
  intro h
  have h' := congrArg String.data h
  rw [lastIndexKey_data, messageKey_data] at h'
  have hrev := congrArg List.reverse h'
  rw [reverse_append_cons (("conv:".data ++ c'.data ++ [':', 'm', 's', 'g']))
    ((u64ToString i).data) ':'] at hrev
  obtain ⟨a, t, hat⟩ := List.exists_cons_of_ne_nil
    (fun hnil : (u64ToString i).data.reverse = [] =>
      u64ToString_data_ne_nil i (by simpa using congrArg List.reverse hnil))
  rw [hat] at hrev
  have hLrev : ("conv:".data ++ (c.data ++ [':', 'l', 'a', 's', 't'])).reverse =
      't' :: ('s' :: 'a' :: 'l' :: ':' :: []) ++ (c.data.reverse ++ "conv:".data.reverse) := by
    simp [List.reverse_append]
  rw [hLrev] at hrev
  have hhead : ('t' : Char) = a := by
    have := congrArg List.head? hrev
    simpa using this
  have hmem : a ∈ (u64ToString i).data := by
    have ha : a ∈ (u64ToString i).data.reverse := by
      rw [hat]; exact List.mem_cons_self a t
    exact List.mem_reverse.mp ha
  have := u64ToString_mem_digit hmem
  have h116 : ('t' : Char).toNat = 116 := rfl
  rw [← hhead] at this
  omega

theorem head_ne_imp_ne {s t : String} (h : s.data.head? ≠ t.data.head?) : s ≠ t :=
  fun he => h (congrArg (fun x : String => x.data.head?) he)

theorem jsLtChars_asymm : ∀ (x y : List Char), jsLtChars x y = true → jsLtChars y x = false
  | [], [] => by simp [jsLtChars]
  | [], _ :: _ => by simp [jsLtChars]
  | _ :: _, [] => by simp [jsLtChars]
  | a :: as, b :: bs => by
    simp only [jsLtChars]
    intro h
    by_cases h1 : a.toNat < b.toNat
    · rw [if_neg (by omega : ¬ b.toNat < a.toNat), if_pos h1]
    · rw [if_neg h1] at h
      by_cases h2 : b.toNat < a.toNat
      · rw [if_pos h2] at h; exact absurd h (by simp)
      · rw [if_neg h2] at h
        rw [if_neg h2, if_neg h1]
        exact jsLtChars_asymm as bs h

theorem jsLtChars_eq_of_not : ∀ (x y : List Char),
    jsLtChars x y = false → jsLtChars y x = false → x = y
  | [], [] => fun _ _ => rfl
  | [], _ :: _ => by simp [jsLtChars]
  | _ :: _, [] => by simp [jsLtChars]
  | a :: as, b :: bs => by
    simp only [jsLtChars]
    intro h1 h2
    by_cases hab : a.toNat < b.toNat
    · rw [if_pos hab] at h1; exact absurd h1 (by simp)
    · by_cases hba : b.toNat < a.toNat
      · rw [if_pos hba] at h2; exact absurd h2 (by simp)
      · rw [if_neg hab, if_neg hba] at h1
        rw [if_neg hba, if_neg hab] at h2
        have hn : a.toNat = b.toNat := by omega
        have hchar : a = b := Char.eq_of_val_eq (UInt32.ext hn)
        have htail := jsLtChars_eq_of_not as bs h1 h2
        rw [hchar, htail]

/-! ## Claim theorems -/

/-- C6: `conversationIdFor(A, B) == conversationIdFor(B, A)` — the derived
conversation id is symmetric and deterministic in the unordered pair of
participant addresses. -/
theorem conversationIdFor_symm (a b : String) :
    conversationIdFor a b = conversationIdFor b a := by
  unfold conversationIdFor
  cases hab : jsLtChars a.data b.data <;> cases hba : jsLtChars b.data a.data <;>
    simp only [hab, hba, if_true, if_false, Bool.false_eq_true, ite_false, ite_true]
  · have : a.data = b.data := jsLtChars_eq_of_not a.data b.data hab hba
    rw [strData_inj this]
  · exact absurd (jsLtChars_asymm a.data b.data hab) (by simp [hba])

/-- C1: for every plaintext and every two keypairs produced by
`generateKeyPair`, `decryptMessage` applied to the nonce and box produced by
`encryptMessage(m, A_secret, B_public)`, together with `A_public` and
`B_secret`, returns exactly `m` (the round-trip law). -/
theorem decrypt_encrypt_roundtrip (m : String) (nonce : List Nat) (sa sb : Nat) :
    decryptMessage
      (encryptMessage m nonce (generateKeyPair sa).secretKey (generateKeyPair sb).publicKey).1
      (encryptMessage m nonce (generateKeyPair sa).secretKey (generateKeyPair sb).publicKey).2
      (generateKeyPair sa).publicKey (generateKeyPair sb).secretKey = some m := by
  simp [decryptMessage, encryptMessage, naclBox, naclBoxOpen, generateKeyPair, dhShared,
    curvePub, Nat.min_comm, Nat.max_comm]

/-- Opening with a wrong recipient secret key on an honestly sealed box
yields the failure sentinel `none`, never a plaintext. -/
theorem decrypt_wrong_secret_fails (m : String) (nonce : List Nat) (sa sb sk : Nat)
    (h : sk ≠ sb) :
    decryptMessage
      (encryptMessage m nonce (generateKeyPair sa).secretKey (generateKeyPair sb).publicKey).1
      (encryptMessage m nonce (generateKeyPair sa).secretKey (generateKeyPair sb).publicKey).2
      (generateKeyPair sa).publicKey sk = none := by
  simp only [decryptMessage, encryptMessage, naclBox, naclBoxOpen, generateKeyPair, dhShared,
    curvePub]
  rw [if_neg]
  intro hc
  obtain ⟨hc1, -⟩ := hc
  have h1 := congrArg Prod.fst hc1
  have h2 := congrArg Prod.snd hc1
  simp only at h1 h2
  exact h (by omega)

/-- C8 counterexample: the claim's "returns null rather than throwing"
fails on malformed inputs: a nonce string that is not valid base64 makes
`naclUtil.decodeBase64` throw (`.error "invalid encoding"`), so
`decryptMessage` does not return the `null` sentinel there. -/
theorem decrypt_malformed_throws :
    decryptMessageChecked (B64.invalid "!not-base64!") (B64.valid ⟨"", [], (0, 0)⟩) 0 0 =
      .error "invalid encoding" ∧
    decryptMessageChecked (B64.invalid "!not-base64!") (B64.valid ⟨"", [], (0, 0)⟩) 0 0 ≠
      .ok none :=
  ⟨rfl, fun h => Except.noConfusion h⟩

/-- C8 amended: for well-formed inputs — valid base64 nonce and box, nonce
of the scheme's 24-byte length, keys the scalars of keypairs — the call
never throws; it returns the `null` sentinel on every authentication or
decryption failure, including a mismatched shared secret (wrong recipient
secret key) or a mismatched nonce (corrupted payload), and it never returns
anything but the box's own plaintext.  On malformed inputs the underlying
library throws (invalid base64, bad nonce size), which the spec's §7 policy
classes as fail-fast caller misuse. -/
theorem decryptMessage_failure_behaviour (nonce : List Nat) (boxed : Boxed)
    (pk sk : Nat) (hlen : nonce.length = 24) :
    (∃ r, decryptMessageChecked (B64.valid nonce) (B64.valid boxed) pk sk = .ok r ∧
      (r = none ∨ r = some boxed.plaintext)) ∧
    ((boxed.shared ≠ dhShared pk sk ∨ boxed.nonce ≠ nonce) →
      decryptMessageChecked (B64.valid nonce) (B64.valid boxed) pk sk = .ok none) ∧
    (∀ (m : String) (sa sb sk' : Nat), sk' ≠ sb →
      decryptMessageChecked (B64.valid nonce)
        (B64.valid (encryptMessage m nonce (generateKeyPair sa).secretKey
          (generateKeyPair sb).publicKey).2)
        (generateKeyPair sa).publicKey sk' = .ok none) := by
  have hok : ∀ b : Boxed, ∀ p s : Nat,
      decryptMessageChecked (B64.valid nonce) (B64.valid b) p s =
        .ok (decryptMessage nonce b p s) := by
    intro b p s
    show (if nonce.length ≠ 24 then (Except.error "bad nonce size" : Except String (Option String))
      else .ok (decryptMessage nonce b p s)) = .ok (decryptMessage nonce b p s)
    rw [if_neg (fun h => h hlen)]
  refine ⟨?_, ?_, ?_⟩
  · refine ⟨decryptMessage nonce boxed pk sk, hok boxed pk sk, ?_⟩
    unfold decryptMessage naclBoxOpen
    by_cases hc : boxed.shared = dhShared pk sk ∧ boxed.nonce = nonce
    · rw [if_pos hc]; exact Or.inr rfl
    · rw [if_neg hc]; exact Or.inl rfl
  · intro hfail
    rw [hok boxed pk sk]
    unfold decryptMessage naclBoxOpen
    rw [if_neg (fun hc => by
      rcases hfail with hf | hf
      · exact hf hc.1
      · exact hf hc.2)]
  · intro m sa sb sk' hsk
    rw [hok _ _ _]
    exact congrArg Except.ok (decrypt_wrong_secret_fails m nonce sa sb sk' hsk)

/-- Witness for the amended C8 at a concrete 24-byte nonce: a box whose
authentication fails is opened to the `null` sentinel with no exception. -/
theorem decryptMessage_failure_behaviour_witness :
    (List.replicate 24 0 : List Nat).length = 24 ∧
    (0, 5) ≠ dhShared 1 2 ∧
    decryptMessageChecked (B64.valid (List.replicate 24 0))
      (B64.valid ⟨"hi", List.replicate 24 0, (0, 5)⟩) 1 2 = .ok none :=
  ⟨by decide, by decide,
    (decryptMessage_failure_behaviour (List.replicate 24 0)
      ⟨"hi", List.replicate 24 0, (0, 5)⟩ 1 2 (by decide)).2.1 (Or.inl (by decide))⟩

/-- C3 counterexample: the web adapter's `addMessage` returns 0, not the new
1-based index the contract just assigned (which is 1 on fresh storage). -/
theorem addMessage_returns_zero_not_index :
    (addMessage emptyStorage 0 "c" "m").2 = 0 ∧
    (add_message emptyStorage 0 "c" "m").2 = 1 ∧ (0 : Nat) ≠ 1 :=
  ⟨rfl, by decide, by decide⟩

/-- C3 amended: `addMessage` always returns 0 after a successful anchor; the
index the contract assigned is the previous last index plus one and can be
refetched via `getLastIndex`. -/
theorem addMessage_zero_and_last_index (s : Storage) (now : Nat) (convId cid : String) :
    (addMessage s now convId cid).2 = 0 ∧
    getLastIndex (addMessage s now convId cid).1 convId =
      (get_last_index s convId + 1) % 2 ^ 64 := by
  refine ⟨rfl, ?_⟩
  unfold getLastIndex addMessage add_message get_last_index setStore
  cases hs : s (lastIndexKey convId) <;> simp [hs]
  · exact parseU64_u64ToString (by norm_num)
  · exact parseU64_u64ToString (Nat.mod_lt _ (by norm_num))

/-- C9 counterexample: for an address whose privacy settings were never set,
the web adapter's `getPrivacy` returns `null` (`none`), not the all-true
default flags. -/
theorem getPrivacy_unset_none :
    getPrivacy emptyStorage "A" = none ∧
    getPrivacy emptyStorage "A" ≠ some ⟨true, true, true⟩ := by
  constructor
  · rfl
  · decide

/-- C9 amended: when no privacy record is stored for an address, `getPrivacy`
returns `none`, and the all-true defaults are substituted by the UI layer
(`(await getPrivacy(addr)) ?? defaults` in `App.tsx`). -/
theorem getPrivacy_unset_defaults (s : Storage) (address : String)
    (h : s (privacyKey address) = none) :
    getPrivacy s address = none ∧ uiPrivacyFor s address = ⟨true, true, true⟩ := by
  unfold uiPrivacyFor getPrivacy get_privacy
  rw [h]
  exact ⟨rfl, rfl⟩

/-- Witness for the amended C9 on fresh storage. -/
theorem getPrivacy_unset_defaults_witness :
    emptyStorage (privacyKey "A") = none ∧
    (getPrivacy emptyStorage "A" = none ∧
      uiPrivacyFor emptyStorage "A" = ⟨true, true, true⟩) :=
  ⟨rfl, getPrivacy_unset_defaults emptyStorage "A" rfl⟩

/-- C7 counterexample: because the participant addresses are joined with the
character `-`, which addresses may themselves contain, two distinct
unordered pairs can derive the same conversation id. -/
theorem conversationIdFor_collision :
    conversationIdFor "x" "y-z" = conversationIdFor "x-y" "z" ∧
    ¬(("x" = "x-y" ∧ "y-z" = "z") ∨ ("x" = "z" ∧ "y-z" = "x-y")) := by
  constructor
  · decide
  · decide

theorem conv_dash_split {x y x' y' : String} (hx : '-' ∉ x.data) (hx' : '-' ∉ x'.data)
    (h : "conv-" ++ x ++ "-" ++ y = "conv-" ++ x' ++ "-" ++ y') : x = x' ∧ y = y' := by
  have h' := congrArg String.data h
  have hc : ("conv-" : String).data = ['c', 'o', 'n', 'v', '-'] := rfl
  have hm : ("-" : String).data = ['-'] := rfl
  simp only [String.data_append, hc, hm, List.cons_append, List.nil_append,
    List.append_assoc, List.singleton_append, List.cons.injEq, true_and] at h'
  obtain ⟨hxx, hyy⟩ := split_at_delim _ _ hx hx' h'
  exact ⟨strData_inj hxx, strData_inj hyy⟩

/-- C7 amended: the conversation addressing scheme is collision-resistant on
addresses that do not contain the delimiter character `-` (which Massa
base58 addresses never do): equal conversation ids imply equal unordered
participant pairs. -/
theorem conversationIdFor_collision_resistant (a b c d : String)
    (ha : '-' ∉ a.data) (hb : '-' ∉ b.data) (hc : '-' ∉ c.data) (hd : '-' ∉ d.data)
    (h : conversationIdFor a b = conversationIdFor c d) :
    (a = c ∧ b = d) ∨ (a = d ∧ b = c) := by
  unfold conversationIdFor at h
  cases hba : jsLtChars b.data a.data <;> cases hdc : jsLtChars d.data c.data <;>
    rw [hba, hdc] at h <;> simp only [if_true, if_false, Bool.false_eq_true,
      ite_false, ite_true] at h
  · exact Or.inl (conv_dash_split ha hc h)
  · obtain ⟨h1, h2⟩ := conv_dash_split ha hd h
    exact Or.inr ⟨h1, h2⟩
  · obtain ⟨h1, h2⟩ := conv_dash_split hb hc h
    exact Or.inr ⟨h2, h1⟩
  · obtain ⟨h1, h2⟩ := conv_dash_split hb hd h
    exact Or.inl ⟨h2, h1⟩

/-- Witness for the amended C7 at concrete dash-free addresses. -/
theorem conversationIdFor_collision_resistant_witness :
    ('-' ∉ ("p" : String).data) ∧
    ((("p" : String) = "p" ∧ ("q" : String) = "q") ∨ (("p" : String) = "q" ∧ ("q" : String) = "p")) :=
  ⟨by decide, conversationIdFor_collision_resistant "p" "q" "p" "q"
    (by decide) (by decide) (by decide) (by decide) rfl⟩

theorem lastIndexKey_head (c : String) : (lastIndexKey c).data.head? = some 'c' := by
  have h : ("conv:" : String).data = 'c' :: "onv:".data := rfl
  simp [lastIndexKey, String.data_append, h]

theorem messageKey_head (c : String) (i : Nat) : (messageKey c i).data.head? = some 'c' := by
  have h : ("conv:" : String).data = 'c' :: "onv:".data := rfl
  simp [messageKey, String.data_append, h]

theorem profileKey_head (a : String) : (profileKey a).data.head? = some 'p' := by
  have h : ("profile:" : String).data = 'p' :: "rofile:".data := rfl
  simp [profileKey, String.data_append, h]

theorem usernameIndexKey_head (u : String) : (usernameIndexKey u).data.head? = some 'u' := by
  have h : ("uname:" : String).data = 'u' :: "name:".data := rfl
  simp [usernameIndexKey, String.data_append, h]

theorem privacyKey_head (a : String) : (privacyKey a).data.head? = some 'p' := by
  have h : ("privacy:" : String).data = 'p' :: "rivacy:".data := rfl
  simp [privacyKey, String.data_append, h]

theorem blockKey_head (o t : String) : (blockKey o t).data.head? = some 'b' := by
  have h : ("block:" : String).data = 'b' :: "lock:".data := rfl
  simp [blockKey, String.data_append, h]

theorem lastSeenKey_head (a : String) : (lastSeenKey a).data.head? = some 'l' := by
  have h : ("lastseen:" : String).data = 'l' :: "astseen:".data := rfl
  simp [lastSeenKey, String.data_append, h]

/-- `add_message` written out: the new index is the previous last index plus
one (as `u64`), and exactly the message record and the last-index record are
written. -/
theorem add_message_eq (s : Storage) (now : Nat) (convId cid : String) :
    add_message s now convId cid =
      (setStore
        (setStore s (messageKey convId ((get_last_index s convId + 1) % 2 ^ 64))
          (Message.toJSON ⟨cid, now⟩))
        (lastIndexKey convId) (u64ToString ((get_last_index s convId + 1) % 2 ^ 64)),
       (get_last_index s convId + 1) % 2 ^ 64) := by
  unfold add_message get_last_index
  cases hs : s (lastIndexKey convId) <;> simp [hs]

/-- C10: `add_message(c, cid)` changes only the last-index record of `c` and
the message record at the newly assigned index: every other storage key is
untouched, so `get_last_index` and `get_message` of every other conversation,
`get_message` of `c` at every other index, and all profile, username-index,
privacy, block and last-seen records are unchanged (the storage-key encoding
keeps the key families pairwise disjoint for all input strings). -/
theorem add_message_frame (s : Storage) (now : Nat) (convId cid : String) :
    (∀ k, k ≠ lastIndexKey convId → k ≠ messageKey convId (add_message s now convId cid).2 →
      (add_message s now convId cid).1 k = s k) ∧
    (∀ c', c' ≠ convId →
      get_last_index (add_message s now convId cid).1 c' = get_last_index s c') ∧
    (∀ c' i, c' ≠ convId →
      get_message (add_message s now convId cid).1 c' i = get_message s c' i) ∧
    (∀ j, j ≠ (add_message s now convId cid).2 →
      get_message (add_message s now convId cid).1 convId j = get_message s convId j) ∧
    (∀ a, get_profile_by_address (add_message s now convId cid).1 a =
      get_profile_by_address s a) ∧
    (∀ u, (add_message s now convId cid).1 (usernameIndexKey u) = s (usernameIndexKey u)) ∧
    (∀ a, get_privacy (add_message s now convId cid).1 a = get_privacy s a) ∧
    (∀ o t, is_blocked (add_message s now convId cid).1 o t = is_blocked s o t) ∧
    (∀ a, get_last_seen (add_message s now convId cid).1 a = get_last_seen s a) := by
  rw [add_message_eq]
  dsimp only
  set n := (get_last_index s convId + 1) % 2 ^ 64 with hn
  have hk : ∀ k, k ≠ lastIndexKey convId → k ≠ messageKey convId n →
      setStore (setStore s (messageKey convId n) (Message.toJSON ⟨cid, now⟩))
        (lastIndexKey convId) (u64ToString n) k = s k := by
    intro k h1 h2
    unfold setStore
    rw [if_neg h1, if_neg h2]
  refine ⟨hk, ?_, ?_, ?_, ?_, ?_, ?_, ?_, ?_⟩
  · intro c' hc'
    unfold get_last_index
    rw [hk (lastIndexKey c') (fun he => hc' (lastIndexKey_inj he))
      (lastIndexKey_ne_messageKey c' convId n)]
  · intro c' i hc'
    unfold get_message
    rw [hk (messageKey c' i) (Ne.symm (lastIndexKey_ne_messageKey convId c' i))
      (fun he => hc' (messageKey_inj he).1)]
  · intro j hj
    unfold get_message
    rw [hk (messageKey convId j) (Ne.symm (lastIndexKey_ne_messageKey convId convId j))
      (fun he => hj (messageKey_inj he).2)]
  · intro a
    unfold get_profile_by_address
    rw [hk (profileKey a)
      (head_ne_imp_ne (by rw [profileKey_head, lastIndexKey_head]; decide))
      (head_ne_imp_ne (by rw [profileKey_head, messageKey_head]; decide))]
  · intro u
    exact hk (usernameIndexKey u)
      (head_ne_imp_ne (by rw [usernameIndexKey_head, lastIndexKey_head]; decide))
      (head_ne_imp_ne (by rw [usernameIndexKey_head, messageKey_head]; decide))
  · intro a
    unfold get_privacy
    rw [hk (privacyKey a)
      (head_ne_imp_ne (by rw [privacyKey_head, lastIndexKey_head]; decide))
      (head_ne_imp_ne (by rw [privacyKey_head, messageKey_head]; decide))]
  · intro o t
    unfold is_blocked
    rw [hk (blockKey o t)
      (head_ne_imp_ne (by rw [blockKey_head, lastIndexKey_head]; decide))
      (head_ne_imp_ne (by rw [blockKey_head, messageKey_head]; decide))]
  · intro a
    unfold get_last_seen
    rw [hk (lastSeenKey a)
      (head_ne_imp_ne (by rw [lastSeenKey_head, lastIndexKey_head]; decide))
      (head_ne_imp_ne (by rw [lastSeenKey_head, messageKey_head]; decide))]

/-- Witness for C10 on fresh storage: an unrelated raw key, another
conversation's records, another index of the same conversation, and every
other record family are unchanged by one `add_message`. -/
theorem add_message_frame_witness :
    (add_message emptyStorage 7 "a" "m").1 "zzz" = emptyStorage "zzz" ∧
    get_last_index (add_message emptyStorage 7 "a" "m").1 "b" =
      get_last_index emptyStorage "b" ∧
    get_message (add_message emptyStorage 7 "a" "m").1 "b" 1 =
      get_message emptyStorage "b" 1 ∧
    get_message (add_message emptyStorage 7 "a" "m").1 "a" 2 =
      get_message emptyStorage "a" 2 ∧
    get_profile_by_address (add_message emptyStorage 7 "a" "m").1 "A" =
      get_profile_by_address emptyStorage "A" ∧
    is_blocked (add_message emptyStorage 7 "a" "m").1 "A" "B" =
      is_blocked emptyStorage "A" "B" := by
  have h := add_message_frame emptyStorage 7 "a" "m"
  refine ⟨h.1 "zzz" (by decide) (by decide), h.2.1 "b" (by decide),
    h.2.2.1 "b" 1 (by decide), h.2.2.2.1 2 (by decide),
    h.2.2.2.2.1 "A", h.2.2.2.2.2.2.2.1 "A" "B"⟩

theorem message_toJSON_head (m : Message) : m.toJSON.data.head? = some '\x7b' := by
  have h : ("\x7b\"cid\":\"" : String).data = '\x7b' :: "\"cid\":\"".data := rfl
  simp [Message.toJSON, String.data_append, h]

theorem message_toJSON_ne_empty (m : Message) : m.toJSON ≠ "" := by
  intro h
  have h2 := congrArg (fun s : String => s.data.head?) h
  simp [message_toJSON_head] at h2

theorem addMessages_invariant :
    ∀ (calls : List (Nat × String)) (k : Nat) (s : Storage) (c : String),
      k + calls.length < 2 ^ 63 →
      (s (lastIndexKey c) = if k = 0 then none else some (u64ToString k)) →
      (∀ i, 1 ≤ i → i ≤ k → ∃ v, s (messageKey c i) = some v ∧ v ≠ "") →
      (∀ i, i = 0 ∨ k < i → s (messageKey c i) = none) →
      (addMessages s c calls) (lastIndexKey c) =
          (if k + calls.length = 0 then none else some (u64ToString (k + calls.length))) ∧
      (∀ i, 1 ≤ i → i ≤ k + calls.length →
        ∃ v, (addMessages s c calls) (messageKey c i) = some v ∧ v ≠ "") ∧
      (∀ i, i = 0 ∨ k + calls.length < i → (addMessages s c calls) (messageKey c i) = none) := by
  intro calls
  induction calls with
  | nil =>
    intro k s c _ hlast hpresent habsent
    simp only [addMessages, List.foldl_nil, List.length_nil, Nat.add_zero]
    exact ⟨hlast, hpresent, habsent⟩
  | cons p rest ih =>
    intro k s c hlen hlast hpresent habsent
    have hstep : addMessages s c (p :: rest) = addMessages (add_message s p.1 c p.2).1 c rest := by
      simp [addMessages]
    have hglast : get_last_index s c = k := by
      unfold get_last_index
      rw [hlast]
      by_cases hk : k = 0
      · rw [if_pos hk, hk]
      · rw [if_neg hk]
        exact parseU64_u64ToString (by omega)
    have hn : (add_message s p.1 c p.2).2 = k + 1 := by
      rw [add_message_eq]
      dsimp only
      rw [hglast]
      have : k + 1 < 2 ^ 64 := by
        have h63 : (2 : Nat) ^ 63 < 2 ^ 64 := by norm_num
        omega
      exact Nat.mod_eq_of_lt this
    have hs1 : (add_message s p.1 c p.2).1 =
        setStore (setStore s (messageKey c (k + 1)) (Message.toJSON ⟨p.2, p.1⟩))
          (lastIndexKey c) (u64ToString (k + 1)) := by
      rw [add_message_eq]
      dsimp only
      rw [hglast]
      have : k + 1 < 2 ^ 64 := by
        have h63 : (2 : Nat) ^ 63 < 2 ^ 64 := by norm_num
        omega
      rw [Nat.mod_eq_of_lt this]
    have harith : k + (p :: rest).length = (k + 1) + rest.length := by
      simp only [List.length_cons]; omega
    have hlen' : (k + 1) + rest.length < 2 ^ 63 := by
      simp only [List.length_cons] at hlen; omega
    have hlast' : (add_message s p.1 c p.2).1 (lastIndexKey c) =
        if k + 1 = 0 then none else some (u64ToString (k + 1)) := by
      rw [hs1, if_neg (Nat.succ_ne_zero k)]
      unfold setStore
      rw [if_pos rfl]
    have hpresent' : ∀ i, 1 ≤ i → i ≤ k + 1 →
        ∃ v, (add_message s p.1 c p.2).1 (messageKey c i) = some v ∧ v ≠ "" := by
      intro i h1 h2
      rw [hs1]
      unfold setStore
      rw [if_neg (Ne.symm (lastIndexKey_ne_messageKey c c i))]
      by_cases hi : i = k + 1
      · subst hi
        rw [if_pos rfl]
        exact ⟨_, rfl, message_toJSON_ne_empty _⟩
      · rw [if_neg (fun he => hi (messageKey_inj he).2)]
        exact hpresent i h1 (by omega)
    have habsent' : ∀ i, i = 0 ∨ k + 1 < i →
        (add_message s p.1 c p.2).1 (messageKey c i) = none := by
      intro i hi
      rw [hs1]
      unfold setStore
      rw [if_neg (Ne.symm (lastIndexKey_ne_messageKey c c i))]
      have hik : i ≠ k + 1 := by omega
      rw [if_neg (fun he => hik (messageKey_inj he).2)]
      exact habsent i (by omega)
    rw [hstep, harith]
    exact ih (k + 1) _ c hlen' hlast' hpresent' habsent'

/-- C2: starting from storage in which conversation `c` is unseen,
`get_last_index(c)` is 0; after `add_message(c, ·)` has been applied for each
of the N calls in sequence, `get_last_index(c)` returns N, `get_message(c, i)`
is a non-empty record for every `i` in `1..N`, and `get_message(c, i)` is
empty for `i = 0` and `i = N + 1`. -/
theorem add_message_sequence_spec (s₀ : Storage) (c : String) (calls : List (Nat × String))
    (hunseen : ∀ suffix, s₀ ("conv:" ++ c ++ ":" ++ suffix) = none)
    (hlen : calls.length < 2 ^ 63) :
    get_last_index s₀ c = 0 ∧
    get_last_index (addMessages s₀ c calls) c = calls.length ∧
    (∀ i, 1 ≤ i → i ≤ calls.length → get_message (addMessages s₀ c calls) c i ≠ "") ∧
    get_message (addMessages s₀ c calls) c 0 = "" ∧
    get_message (addMessages s₀ c calls) c (calls.length + 1) = "" := by
  have hlastkey : lastIndexKey c = "conv:" ++ c ++ ":" ++ "last" := by
    apply strData_inj
    have h1 : (":last" : String).data = [':', 'l', 'a', 's', 't'] := rfl
    have h2 : (":" : String).data = [':'] := rfl
    have h3 : ("last" : String).data = ['l', 'a', 's', 't'] := rfl
    simp [lastIndexKey, String.data_append, h1, h2, h3]
  have hmsgkey : ∀ i, messageKey c i = "conv:" ++ c ++ ":" ++ ("msg:" ++ u64ToString i) := by
    intro i
    apply strData_inj
    have h1 : (":msg:" : String).data = [':', 'm', 's', 'g', ':'] := rfl
    have h2 : (":" : String).data = [':'] := rfl
    have h3 : ("msg:" : String).data = ['m', 's', 'g', ':'] := rfl
    simp [messageKey, String.data_append, h1, h2, h3]
  have hs0last : s₀ (lastIndexKey c) = none := by rw [hlastkey]; exact hunseen "last"
  have hs0msg : ∀ i, s₀ (messageKey c i) = none := by
    intro i; rw [hmsgkey i]; exact hunseen _
  have hinv := addMessages_invariant calls 0 s₀ c (by omega)
    (by rw [if_pos rfl]; exact hs0last)
    (fun i h1 h2 => absurd (Nat.le_trans h1 h2) (by omega))
    (fun i _ => hs0msg i)
  refine ⟨by unfold get_last_index; rw [hs0last], ?_, ?_, ?_, ?_⟩
  · unfold get_last_index
    rw [hinv.1]
    by_cases hl : calls.length = 0
    · rw [if_pos (by omega), hl]
    · rw [if_neg (by omega)]
      simp only [Nat.zero_add]
      exact parseU64_u64ToString (by omega)
  · intro i h1 h2
    obtain ⟨v, hv, hne⟩ := hinv.2.1 i h1 (by omega)
    unfold get_message
    rw [hv]
    exact hne
  · unfold get_message
    rw [hinv.2.2 0 (Or.inl rfl)]
  · unfold get_message
    rw [hinv.2.2 (calls.length + 1) (Or.inr (by omega))]

/-- Witness for C2: two appends into a fresh conversation. -/
theorem add_message_sequence_spec_witness :
    (∀ suffix, emptyStorage ("conv:" ++ "a" ++ ":" ++ suffix) = none) ∧
    ([(1, "x"), (2, "y")] : List (Nat × String)).length < 2 ^ 63 ∧
    (get_last_index emptyStorage "a" = 0 ∧
      get_last_index (addMessages emptyStorage "a" [(1, "x"), (2, "y")]) "a" = 2 ∧
      (∀ i, 1 ≤ i → i ≤ 2 →
        get_message (addMessages emptyStorage "a" [(1, "x"), (2, "y")]) "a" i ≠ "") ∧
      get_message (addMessages emptyStorage "a" [(1, "x"), (2, "y")]) "a" 0 = "" ∧
      get_message (addMessages emptyStorage "a" [(1, "x"), (2, "y")]) "a" 3 = "") :=
  ⟨fun _ => rfl, by decide,
    add_message_sequence_spec emptyStorage "a" [(1, "x"), (2, "y")] (fun _ => rfl) (by decide)⟩

theorem char_toNat_ofNat {n : Nat} (h : n < 55296) : (Char.ofNat n).toNat = n := by
  unfold Char.ofNat
  rw [dif_pos (Or.inl h : n.isValidChar)]
  rfl

theorem toLowerAsciiChar_fixed {ch d : Char} (hd : d.toNat < 65)
    (h : toLowerAsciiChar ch = d) : ch = d := by
  unfold toLowerAsciiChar at h
  by_cases hr : 65 ≤ ch.toNat ∧ ch.toNat ≤ 90
  · rw [if_pos hr] at h
    exfalso
    have h2 := congrArg Char.toNat h
    rw [char_toNat_ofNat (by omega)] at h2
    omega
  · rw [if_neg hr] at h
    exact h

theorem mem_toJSON_of_mem_username {p : Profile} {ch : Char} (h : ch ∈ p.username.data) :
    ch ∈ p.toJSON.data := by
  unfold Profile.toJSON
  simp only [String.data_append, List.mem_append]
  tauto

theorem profileKey_inj {a b : String} (h : profileKey a = profileKey b) : a = b := by
  have h' := congrArg String.data h
  rw [profileKey, profileKey, String.data_append, String.data_append] at h'
  exact strData_inj (List.append_cancel_left h')

theorem usernameIndexKey_inj {a b : String} (h : usernameIndexKey a = usernameIndexKey b) :
    a = b := by
  have h' := congrArg String.data h
  rw [usernameIndexKey, usernameIndexKey, String.data_append, String.data_append] at h'
  exact strData_inj (List.append_cancel_left h')

/-- A successful `register_profile` writes exactly the profile record (for
some recovered `createdAt`) and the case-folded username index entry. -/
theorem register_profile_ok {s : Storage} {now : Nat} {addr un d av bio : String} {s' : Storage}
    (h : register_profile s now addr un d av bio = .ok s') :
    ∃ ca, s' = setStore
      (setStore s (profileKey addr) (Profile.toJSON ⟨addr, un, d, av, bio, ca, now⟩))
      (usernameIndexKey (toLowerAscii un)) addr := by
  unfold register_profile at h
  split at h
  · cases h
  · dsimp only at h
    split at h
    · cases h
    · injection h with h2
      exact ⟨_, h2.symm⟩

theorem applyReg_error {s : Storage} {op : RegOp} {e : String}
    (h : register_profile s op.now op.address op.username op.displayName
      op.avatarCid op.bio = .error e) : applyReg s op = s := by
  unfold applyReg
  rw [h]

theorem applyReg_ok {s : Storage} {op : RegOp} {s' : Storage}
    (h : register_profile s op.now op.address op.username op.displayName
      op.avatarCid op.bio = .ok s') : applyReg s op = s' := by
  unfold applyReg
  rw [h]

/-- C4 (code_bug evaluation): the `createdAt` recovery of `register_profile`
keys on the first occurrence of `"createdAt":` in the stored JSON, which a
username containing that text subverts: first registering address `A` at
time 100 with username `u","createdAt":5,"x` stores `createdAt = 100`, but
re-registering the same address at time 200 stores `createdAt = 5` instead
of preserving 100. -/
theorem register_profile_createdAt_clobbered :
    get_profile_by_address
        (runRegisters [⟨100, "A", "u\",\"createdAt\":5,\"x", "", "", ""⟩]) "A" =
      Profile.toJSON ⟨"A", "u\",\"createdAt\":5,\"x", "", "", "", 100, 100⟩ ∧
    get_profile_by_address
        (runRegisters [⟨100, "A", "u\",\"createdAt\":5,\"x", "", "", ""⟩,
          ⟨200, "A", "u\",\"createdAt\":5,\"x", "", "", ""⟩]) "A" =
      Profile.toJSON ⟨"A", "u\",\"createdAt\":5,\"x", "", "", "", 5, 200⟩ ∧
    (5 : Nat) ≠ 100 :=
  ⟨by decide, by decide, by decide⟩

/-- C5 counterexample: after `A` registers username `u1` and then username
`u2`, the stale index entry `u1 ↦ A` remains while `A`'s stored profile has
username `u2`, so the username-index/profile-table consistency invariant
fails. -/
theorem username_index_consistency_violated :
    ¬ UnameConsistent
      (runRegisters [⟨30, "A", "u1", "", "", ""⟩, ⟨40, "A", "u2", "", "", ""⟩]) := by
  intro h
  obtain ⟨p, hp, hu⟩ := h "u1" "A" (by decide)
  have hJ : (runRegisters [⟨30, "A", "u1", "", "", ""⟩, ⟨40, "A", "u2", "", "", ""⟩])
      (profileKey "A") = some (Profile.toJSON ⟨"A", "u2", "", "", "", 30, 40⟩) := by decide
  rw [hJ] at hp
  have hpj : Profile.toJSON ⟨"A", "u2", "", "", "", 30, 40⟩ = p.toJSON := Option.some.inj hp
  have h1 : '1' ∈ (toLowerAscii p.username).data := by rw [hu]; decide
  have h1' : '1' ∈ p.username.data.map toLowerAsciiChar := h1
  obtain ⟨ch, hch, hlow⟩ := List.mem_map.mp h1'
  have hch1 : ch = '1' := toLowerAsciiChar_fixed (by decide) hlow
  subst hch1
  have hmem := mem_toJSON_of_mem_username (p := p) hch
  rw [← hpj] at hmem
  exact absurd hmem (by decide)

/-- Invariant preservation for sequences of `register_profile` requests in
which every address always uses one and the same case-folded username
(given by `f`). -/
theorem runRegisters_inv (f : String → String) :
    ∀ (ops : List RegOp) (s : Storage),
      (∀ u addr, s (usernameIndexKey u) = some addr →
        f addr = u ∧ ∃ p : Profile,
          s (profileKey addr) = some p.toJSON ∧ toLowerAscii p.username = u) →
      (∀ op ∈ ops, toLowerAscii op.username = f op.address) →
      ∀ u addr, (ops.foldl applyReg s) (usernameIndexKey u) = some addr →
        f addr = u ∧ ∃ p : Profile,
          (ops.foldl applyReg s) (profileKey addr) = some p.toJSON ∧
          toLowerAscii p.username = u := by
  intro ops
  induction ops with
  | nil => intro s hJ _; exact hJ
  | cons op rest ih =>
    intro s hJ hops
    rw [List.foldl_cons]
    have hopf : toLowerAscii op.username = f op.address :=
      hops op (List.mem_cons_self op rest)
    have hstep : ∀ u addr, (applyReg s op) (usernameIndexKey u) = some addr →
        f addr = u ∧ ∃ p : Profile,
          (applyReg s op) (profileKey addr) = some p.toJSON ∧
          toLowerAscii p.username = u := by
      cases hreg : register_profile s op.now op.address op.username op.displayName
          op.avatarCid op.bio with
      | error e => rw [applyReg_error hreg]; exact hJ
      | ok s' =>
        rw [applyReg_ok hreg]
        obtain ⟨ca, rfl⟩ := register_profile_ok hreg
        intro u addr hlook
        unfold setStore at hlook
        by_cases hkey : usernameIndexKey u = usernameIndexKey (toLowerAscii op.username)
        · have hu : u = toLowerAscii op.username := usernameIndexKey_inj hkey
          rw [if_pos hkey] at hlook
          have haddr : op.address = addr := Option.some.inj hlook
          subst haddr
          refine ⟨by rw [hu, hopf], ⟨⟨op.address, op.username, op.displayName,
            op.avatarCid, op.bio, ca, op.now⟩, ?_, by rw [hu]⟩⟩
          unfold setStore
          rw [if_neg (head_ne_imp_ne
            (by rw [profileKey_head, usernameIndexKey_head]; decide))]
          rw [if_pos rfl]
        · rw [if_neg hkey] at hlook
          rw [if_neg (head_ne_imp_ne
            (by rw [usernameIndexKey_head, profileKey_head]; decide))] at hlook
          obtain ⟨hf, p, hp, hl⟩ := hJ u addr hlook
          refine ⟨hf, p, ?_, hl⟩
          unfold setStore
          rw [if_neg (head_ne_imp_ne
            (by rw [profileKey_head, usernameIndexKey_head]; decide))]
          have haddr : addr ≠ op.address := by
            intro he
            apply hkey
            rw [← hf, he, hopf]
          rw [if_neg (fun he => haddr (profileKey_inj he))]
          exact hp
    exact ih (applyReg s op) hstep (fun o ho => hops o (List.mem_cons_of_mem _ ho))

/-- C5 amended: after any sequence of `register_profile` operations in which
each address always registers the same case-folded username, the username
index and profile table are consistent: every index entry `u ↦ addr` is
matched by `addr`'s stored profile whose username case-folds to `u`.  (When
an address re-registers under a different username, the old index entry goes
stale and the invariant fails, as the counterexample shows.) -/
theorem username_index_consistent_stable (ops : List RegOp) (f : String → String)
    (hops : ∀ op ∈ ops, toLowerAscii op.username = f op.address) :
    UnameConsistent (runRegisters ops) := by
  intro u addr hlook
  have h := runRegisters_inv f ops emptyStorage
    (fun u addr h => Option.noConfusion h) hops u addr hlook
  exact ⟨h.2.choose, h.2.choose_spec.1, h.2.choose_spec.2⟩

/-- Witness for the amended C5: one registration, then the invariant at the
registered username. -/
theorem username_index_consistent_stable_witness :
    (∀ op ∈ ([⟨30, "A", "u1", "", "", ""⟩] : List RegOp),
      toLowerAscii op.username = "u1") ∧
    (∃ p : Profile,
      (runRegisters [⟨30, "A", "u1", "", "", ""⟩]) (profileKey "A") = some p.toJSON ∧
      toLowerAscii p.username = "u1") := by
  have hops : ∀ op ∈ ([⟨30, "A", "u1", "", "", ""⟩] : List RegOp),
      toLowerAscii op.username = (fun _ => "u1" : String → String) op.address := by
    intro op hop
    rw [List.mem_singleton] at hop
    subst hop
    decide
  refine ⟨hops, ?_⟩
  exact username_index_consistent_stable [⟨30, "A", "u1", "", "", ""⟩]
    (fun _ => "u1") hops "u1" "A" (by decide)

end MassaChat
